import Mathlib

/-!
Verification of the continuous audio capture and chunked transcription pipeline
of the speech-to-text repository.

The development shallowly embeds the core source functions:

* `AudioProcessor.resample` and the chunk-boundary recording lifecycle
  (src/unnamed/part_005);
* the transcript append rule shared by `WebSpeechTranscriber.onresult` and
  `WhisperTurboTranscriber.handleTranscriptionResult`
  (src/unnamed/part_002 lines 69-72, src/unnamed/part_001 lines 292-295);
* the `WebSpeechTranscriber` start / auto-restart logic (src/unnamed/part_002);
* the `WhisperTurboTranscriber` chunk processing queue (src/unnamed/part_001).

Machine floats are modelled as rationals, JS strings as lists of characters,
and the single-threaded event loop as a step function over explicit state.
-/

namespace SpeechToText

/-! ## Resampler (AudioProcessor.resample, src/unnamed/part_005 lines 203-232) -/

/-- JavaScript Math.round on a nonnegative rational: floor (q + 1/2). -/
def jsRound (q : ℚ) : ℤ := ⌊q + 1/2⌋

/-- The body of resample's while loop.  The source keeps two cursors,
offsetResult (the output index) and offsetBuffer (the input index where the
current averaging window begins), computes nextOffsetBuffer as
Math.round((offsetResult + 1) * sampleRateRatio), averages the input samples
with index in [offsetBuffer, nextOffsetBuffer) that lie inside the buffer, and
stores accum / count.  The fuel argument n is newLength - offsetResult.
In ℚ an empty window yields 0/0 = 0 where JS stores NaN; the emptiness
condition itself is analysed separately (see boxCount below). -/
def resampleGo (audioData : List ℚ) (rr : ℚ) : ℕ → ℕ → ℕ → List ℚ
  | 0, _, _ => []
  | n + 1, offsetResult, offsetBuffer =>
      let nextOffsetBuffer := (jsRound (((offsetResult : ℚ) + 1) * rr)).toNat
      let window := (audioData.drop offsetBuffer).take (nextOffsetBuffer - offsetBuffer)
      (window.sum / (window.length : ℚ)) ::
        resampleGo audioData rr n (offsetResult + 1) nextOffsetBuffer

/-- AudioProcessor.resample (src/unnamed/part_005 lines 203-232): identity when
the rates agree, otherwise decimation by box averaging with
sampleRateRatio = fromSampleRate / toSampleRate and output length
Math.round(audioData.length / sampleRateRatio). -/
def resample (audioData : List ℚ) (fromSampleRate toSampleRate : ℕ) : List ℚ :=
  if fromSampleRate = toSampleRate then audioData
  else
    let rr : ℚ := (fromSampleRate : ℚ) / (toSampleRate : ℚ)
    let newLength := (jsRound ((audioData.length : ℚ) / rr)).toNat
    resampleGo audioData rr newLength 0 0

/-- Modelled from the spec's wording for the resampler contract: output index i
averages exactly the input samples whose index falls in
[round(i * r), round((i+1) * r)) clipped to the input length,
where r = fromRate / toRate.  Used to compare against resample. -/
def boxAverageSpec (audioData : List ℚ) (fromRate toRate : ℕ) (i : ℕ) : ℚ :=
  let r : ℚ := (fromRate : ℚ) / (toRate : ℚ)
  let lo := (jsRound ((i : ℚ) * r)).toNat
  let hi := (jsRound (((i : ℚ) + 1) * r)).toNat
  let window := (audioData.drop lo).take (hi - lo)
  window.sum / (window.length : ℚ)

/-- Number of input samples averaged into output index i (the count variable of
the source loop at that index). -/
def boxCount (audioData : List ℚ) (fromRate toRate : ℕ) (i : ℕ) : ℕ :=
  let r : ℚ := (fromRate : ℚ) / (toRate : ℚ)
  let lo := (jsRound ((i : ℚ) * r)).toNat
  let hi := (jsRound (((i : ℚ) + 1) * r)).toNat
  ((audioData.drop lo).take (hi - lo)).length

/-! ## Transcript append rule (src/unnamed/part_002 lines 69-72 and
src/unnamed/part_001 lines 292-295) -/

/-- The space character, code point 32. -/
def spaceChar : Char := Char.ofNat 32

/-- The newline character, code point 10. -/
def newlineChar : Char := Char.ofNat 10

/-- The shared final-transcript append: if the final transcript has positive
length and does not end with the space character, a space is appended first,
then the new text is appended.  JS strings are modelled as lists of
characters. -/
def appendFinal (finalTranscript text : List Char) : List Char :=
  if finalTranscript.length > 0 && !(finalTranscript.getLast? == some spaceChar) then
    finalTranscript ++ spaceChar :: text
  else
    finalTranscript ++ text

/-- Whether a string is non-empty and its last character is whitespace (the
condition named by the spec sentence about appendFinal). -/
def endsInWhitespace (s : List Char) : Bool :=
  (s.getLast?.map Char.isWhitespace).getD false

/-! ## Chunk Recorder boundaries (AudioProcessor, src/unnamed/part_005
lines 59-92 and 142-152)

scheduleChunkStop arms a timer that fires chunkDuration ms after the current
chunk began and calls mediaRecorder.stop(), which ends the capture interval of
the current chunk (a MediaRecorder captures audio only while it is in the
recording state).  The async onstop handler first awaits convertBlobToPCM on
the finished blob and only then, if still recording, calls
mediaRecorder.start() and re-arms the timer; so the next chunk begins
capturing only after that handler delay.  A boundary is therefore modelled by
the chunk duration D and the nonnegative handler delay d elapsed between the
recorder stop and its restart. -/

/-- Capture intervals [start, stop) of the chunks finalized at each boundary,
for a recorder whose current chunk began at time s: the timer fires at s + D,
and after the boundary's handler delay d the next chunk begins at s + D + d. -/
def chunkIntervals (D s : ℕ) : List ℕ → List (ℕ × ℕ)
  | [] => []
  | d :: ds => (s, s + D) :: chunkIntervals D (s + D + d) ds

/-- Start time of the chunk left accumulating after all boundaries fired. -/
def nextChunkStart (D s : ℕ) : List ℕ → ℕ
  | [] => s
  | d :: ds => nextChunkStart D (s + D + d) ds

/-- The windows [s + D, s + D + d) during which the recorder is stopped at each
boundary: from the timer's mediaRecorder.stop() until the onstop handler
restarts it. -/
def restartWindows (D s : ℕ) : List ℕ → List (ℕ × ℕ)
  | [] => []
  | d :: ds => (s + D, s + D + d) :: restartWindows D (s + D + d) ds

/-- An instant t is captured by the recording run iff it falls in a finalized
chunk's capture interval or in the still-accumulating current chunk. -/
def captured (D : ℕ) (ds : List ℕ) (t : ℕ) : Bool :=
  ((chunkIntervals D 0 ds).any fun p => p.1 ≤ t && t < p.2) ||
    (nextChunkStart D 0 ds ≤ t)

/-- An instant t falls inside one of the restart windows. -/
def inRestartWindow (D : ℕ) (ds : List ℕ) (t : ℕ) : Bool :=
  (restartWindows D 0 ds).any fun p => p.1 ≤ t && t < p.2

/-! ## WebSpeechTranscriber (src/unnamed/part_002) -/

/-- Status values the transcriber reports through onStatusChange. -/
inductive WSStatus where
  | recording
  | stopped
  deriving DecidableEq, Repr

/-- The observable state of a WebSpeechTranscriber (constructor lines 7-22):
recording flag, auto-restart flag, the two transcript fields, the restart
delay, plus the lists of status events and error reports delivered to the
onStatusChange / onError callbacks. -/
structure WSState where
  hasRecognition : Bool
  isRecording : Bool
  shouldRestart : Bool
  finalTranscript : List Char
  interimTranscript : List Char
  restartDelay : ℕ
  statusEvents : List WSStatus
  errorsReported : ℕ
  deriving DecidableEq, Repr

/-- The constructor's initial state: restartDelay = 300 ms, everything else
empty or false; recognition is available on a supported browser. -/
def initWSState : WSState :=
  { hasRecognition := true, isRecording := false, shouldRestart := false
    finalTranscript := [], interimTranscript := [], restartDelay := 300
    statusEvents := [], errorsReported := 0 }

/-- Outcome of one recognition.onend firing: the resulting transcriber state,
the times at which recognition.start() was invoked, and whether a stopped
status was emitted. -/
structure OnendOutcome where
  final : WSState
  startCalls : List ℕ
  stoppedEmitted : Bool
  deriving DecidableEq, Repr

/-- recognition.onend (src/unnamed/part_002 lines 90-130), firing at time t0,
with oracles telling whether the first and second recognition.start() attempts
throw.  If shouldRestart && isRecording, a restart is scheduled restartDelay ms
later; if that start() throws, one more attempt is scheduled 1000 ms after it;
if that also throws, the catch calls handleError (an onError report) and
nothing else.  Otherwise the transcriber records that it actually stopped.
The model covers the runs in which no other event interleaves between onend
and its timers, so the isRecording/shouldRestart guards re-checked inside the
timer callbacks still hold. -/
def onend (st : WSState) (t0 : ℕ) (firstThrows secondThrows : Bool) : OnendOutcome :=
  if st.shouldRestart && st.isRecording then
    let t1 := t0 + st.restartDelay
    if !firstThrows then
      { final := st, startCalls := [t1], stoppedEmitted := false }
    else
      let t2 := t1 + 1000
      if !secondThrows then
        { final := st, startCalls := [t1, t2], stoppedEmitted := false }
      else
        { final := { st with errorsReported := st.errorsReported + 1 }
          startCalls := [t1, t2], stoppedEmitted := false }
  else
    { final := { st with isRecording := false
                         statusEvents := st.statusEvents ++ [WSStatus.stopped] }
      startCalls := [], stoppedEmitted := true }

/-- WebSpeechTranscriber.start (src/unnamed/part_002 lines 181-212).  The
oracles tell whether the getUserMedia permission probe succeeds and whether
recognition.start() throws.  On the happy path the interim transcript is
cleared, shouldRestart is set and true is returned; every failure path calls
handleError and returns false.  Note the interim reset happens before
recognition.start(), so it survives a start() throw. -/
def wsStart (st : WSState) (permissionGranted startThrows : Bool) : Bool × WSState :=
  if !st.hasRecognition then
    (false, { st with errorsReported := st.errorsReported + 1 })
  else if st.isRecording then
    (false, st)
  else if permissionGranted then
    let st := { st with interimTranscript := [], shouldRestart := true }
    if startThrows then
      (false, { st with errorsReported := st.errorsReported + 1 })
    else
      (true, st)
  else
    (false, { st with errorsReported := st.errorsReported + 1 })

/-! ## WhisperTurboTranscriber chunk processing queue (src/unnamed/part_001)

Chunks are identified by natural-number tags; the worker boundary is modelled
by the ghost fields posted (the transcribe messages sent, in order) and
inFlight (transcribe calls whose result or error message has not yet arrived),
and by the ghost field enqueued recording every chunk onChunkReady delivered.
The single-threaded event loop is a step function over this state; worker
result/error messages are environment events that are only valid while a
transcribe call is outstanding. -/

/-- Status values reported through the transcriber's onStatusChange. -/
inductive WTStatus where
  | recording
  | processing
  | stopped
  deriving DecidableEq, Repr

/-- Observable state of a WhisperTurboTranscriber (constructor lines 9-28)
plus the ghost worker-boundary fields. -/
structure WTState where
  isRecording : Bool
  isProcessing : Bool
  processingQueue : List ℕ
  posted : List ℕ
  inFlight : ℕ
  enqueued : List ℕ
  statusEvents : List WTStatus
  errorsReported : ℕ
  deriving DecidableEq, Repr

/-- The constructor's initial state. -/
def initWTState : WTState :=
  { isRecording := false, isProcessing := false, processingQueue := []
    posted := [], inFlight := 0, enqueued := [], statusEvents := []
    errorsReported := 0 }

/-- WhisperTurboTranscriber.processQueue (src/unnamed/part_001 lines 248-279):
on an empty queue clear isProcessing and, if recording has stopped, report the
stopped status; otherwise set isProcessing, report processing, shift the head
chunk off the queue and post it to the worker. -/
def processQueue (st : WTState) : WTState :=
  match st.processingQueue with
  | [] =>
      let st := { st with isProcessing := false }
      if !st.isRecording then
        { st with statusEvents := st.statusEvents ++ [WTStatus.stopped] }
      else st
  | c :: rest =>
      { st with isProcessing := true
                statusEvents := st.statusEvents ++ [WTStatus.processing]
                processingQueue := rest
                posted := st.posted ++ [c]
                inFlight := st.inFlight + 1 }

/-- Events of the queue's event loop: the successful start() path, the audio
processor's onChunkReady callback, the worker's result and error messages
(setupWorkerListeners, lines 78-89), and stop(). -/
inductive WTEvent where
  | startRecording
  | chunkReady (c : ℕ)
  | workerResult
  | workerError
  | stopRecording
  deriving DecidableEq, Repr

/-- One event-loop turn.
startRecording: the success path of start() (lines 201-207).
chunkReady: onChunkReady (lines 218-228) pushes the chunk and, if not already
processing, runs processQueue.
workerResult: the result message runs handleTranscriptionResult whose tail
calls processQueue (line 307); the completed call leaves flight.
workerError: the error message (lines 82-89) reports the error, clears
isProcessing and runs processQueue; the failed chunk is not re-queued.
stopRecording: stop() (lines 311-326) clears isRecording; the audio
processor's forwarded stopped status (lines 236-242) and stop()'s own check
each report stopped only when not processing. -/
def step (st : WTState) : WTEvent → WTState
  | WTEvent.startRecording =>
      if st.isRecording then st
      else { st with isRecording := true
                     statusEvents := st.statusEvents ++ [WTStatus.recording] }
  | WTEvent.chunkReady c =>
      let st := { st with processingQueue := st.processingQueue ++ [c]
                          enqueued := st.enqueued ++ [c] }
      if !st.isProcessing then processQueue st else st
  | WTEvent.workerResult =>
      processQueue { st with inFlight := st.inFlight - 1 }
  | WTEvent.workerError =>
      processQueue { st with inFlight := st.inFlight - 1
                             isProcessing := false
                             errorsReported := st.errorsReported + 1 }
  | WTEvent.stopRecording =>
      let st := { st with isRecording := false }
      let st :=
        if !st.isProcessing then
          { st with statusEvents := st.statusEvents ++ [WTStatus.stopped] }
        else st
      if !st.isProcessing then
        { st with statusEvents := st.statusEvents ++ [WTStatus.stopped] }
      else st

/-- A worker result or error message is only possible while a transcribe call
is outstanding; the other events are always available. -/
def validEvent (st : WTState) : WTEvent → Bool
  | WTEvent.workerResult => !(st.inFlight == 0)
  | WTEvent.workerError => !(st.inFlight == 0)
  | _ => true

/-- A trace is valid when every event is valid in the state it fires in. -/
def validTrace (st : WTState) : List WTEvent → Bool
  | [] => true
  | e :: es => validEvent st e && validTrace (step st e) es

/-- Run a trace of events from a state. -/
def run (st : WTState) : List WTEvent → WTState
  | [] => st
  | e :: es => run (step st e) es

/-- The queue invariant: at most one transcribe call is in flight (exactly one
while isProcessing), the queue is empty whenever the loop is idle, and the
chunks posted to the worker followed by the pending queue are exactly the
enqueued chunks in order (so posted is an order-preserving prefix of the
enqueue order). -/
def WTInv (st : WTState) : Bool :=
  (st.inFlight == if st.isProcessing then 1 else 0) &&
    (st.isProcessing || st.processingQueue.isEmpty) &&
    (st.posted ++ st.processingQueue == st.enqueued)

/-- The statuses a single event-loop turn delivers to onStatusChange. -/
def emittedStatuses (st : WTState) (e : WTEvent) : List WTStatus :=
  ((step st e).statusEvents).drop st.statusEvents.length

/-! ## Helper lemmas -/

/-- The still-accumulating chunk starts no earlier than the run's start. -/
theorem nextChunkStart_lb (D : ℕ) :
    ∀ (ds : List ℕ) (s : ℕ), s ≤ nextChunkStart D s ds
  | [], s => le_refl s
  | d :: ds, s => le_trans (by omega) (nextChunkStart_lb D ds (s + D + d))

/-- No chunk interval of a run starting at s captures an instant before s. -/
theorem chunkIntervals_any_eq_false (D t : ℕ) :
    ∀ (ds : List ℕ) (s : ℕ), t < s →
      ((chunkIntervals D s ds).any fun p => p.1 ≤ t && t < p.2) = false
  | [], _, _ => rfl
  | d :: ds, s, h => by
      simp only [chunkIntervals, List.any_cons, Bool.or_eq_false_iff]
      refine ⟨?_, chunkIntervals_any_eq_false D t ds (s + D + d) (by omega)⟩
      simp only [Bool.and_eq_false_iff, decide_eq_false_iff_not]
      omega

/-- No restart window of a run starting at s contains an instant before
s + D. -/
theorem restartWindows_any_eq_false (D t : ℕ) :
    ∀ (ds : List ℕ) (s : ℕ), t < s + D →
      ((restartWindows D s ds).any fun p => p.1 ≤ t && t < p.2) = false
  | [], _, _ => rfl
  | d :: ds, s, h => by
      simp only [restartWindows, List.any_cons, Bool.or_eq_false_iff]
      refine ⟨?_, restartWindows_any_eq_false D t ds (s + D + d) (by omega)⟩
      simp only [Bool.and_eq_false_iff, decide_eq_false_iff_not]
      omega

/-- Coverage dichotomy for a run starting at s: an instant t ≥ s is captured
iff it is outside every restart window. -/
theorem captured_from_eq (D t : ℕ) :
    ∀ (ds : List ℕ) (s : ℕ), s ≤ t →
      (((chunkIntervals D s ds).any fun p => p.1 ≤ t && t < p.2) ||
          decide (nextChunkStart D s ds ≤ t))
        = !((restartWindows D s ds).any fun p => p.1 ≤ t && t < p.2)
  | [], s, h => by
      simp [chunkIntervals, restartWindows, nextChunkStart, h]
  | d :: ds, s, h => by
      simp only [chunkIntervals, restartWindows, nextChunkStart, List.any_cons]
      rcases lt_or_ge t (s + D) with h1 | h1
      · rw [restartWindows_any_eq_false D t ds (s + D + d) (by omega)]
        have h2 : ¬ (s + D ≤ t) := by omega
        simp [h, h1, h2]
      · rcases lt_or_ge t (s + D + d) with h2 | h2
        · rw [chunkIntervals_any_eq_false D t ds (s + D + d) (by omega)]
          have h3 : ¬ (nextChunkStart D (s + D + d) ds ≤ t) :=
            fun hc => absurd (le_trans (nextChunkStart_lb D ds (s + D + d)) hc) (by omega)
          have h4 : ¬ (t < s + D) := by omega
          simp [h1, h2, h3, h4]
        · have h3 : ¬ (t < s + D) := by omega
          have h4 : ¬ (t < s + D + d) := by omega
          simp only [decide_eq_true_eq, h3, decide_False, Bool.and_false, Bool.false_or,
            h4, decide_eq_false_iff_not]
          simpa using captured_from_eq D t ds (s + D + d) h2

/-- The resample loop emits exactly its fuel's worth of output samples. -/
theorem resampleGo_length (audioData : List ℚ) (rr : ℚ) :
    ∀ (n k b : ℕ), (resampleGo audioData rr n k b).length = n
  | 0, _, _ => rfl
  | n + 1, k, b => by
      simp [resampleGo, resampleGo_length audioData rr n]

/-- Each output sample of the resample loop, started at output index k with
the input cursor at round(k * rr), is the clipped box average of its index's
window: the loop's carried cursor agrees with the directly computed window
bounds at every index. -/
theorem resampleGo_getD (audioData : List ℚ) (fr tr : ℕ) :
    ∀ (n k j : ℕ), j < n →
      (resampleGo audioData ((fr : ℚ) / (tr : ℚ)) n k
          (jsRound ((k : ℚ) * ((fr : ℚ) / (tr : ℚ)))).toNat).getD j 0
        = boxAverageSpec audioData fr tr (k + j)
  | n + 1, k, 0, _ => by
      simp [resampleGo, boxAverageSpec]
  | n + 1, k, j + 1, h => by
      have hcast : ((k : ℚ) + 1) = (((k + 1 : ℕ) : ℚ)) := by push_cast; ring
      simp only [resampleGo, List.getD_cons_succ]
      rw [hcast, resampleGo_getD audioData fr tr n (k + 1) j (by omega)]
      congr 1
      omega

/-! ## Claim C8 -/

/-- C8: for distinct rates, resample performs ratio-based box averaging — the
output sample at each index i is the average of the input samples whose index
lies in [round(i * rr), round((i + 1) * rr)) clipped to the input length,
with rr = fromRate / toRate. -/
theorem resample_box_average (audioData : List ℚ) (fromRate toRate : ℕ)
    (hne : fromRate ≠ toRate) (i : ℕ)
    (hi : i < (resample audioData fromRate toRate).length) :
    (resample audioData fromRate toRate).getD i 0
      = boxAverageSpec audioData fromRate toRate i := by
  simp only [resample, if_neg hne] at hi ⊢
  have h0 : (jsRound ((((0 : ℕ)) : ℚ) * ((fromRate : ℚ) / (toRate : ℚ)))).toNat = 0 := by
    norm_num [jsRound]
  rw [resampleGo_length] at hi
  have h := resampleGo_getD audioData fromRate toRate
    ((jsRound ((audioData.length : ℚ) / ((fromRate : ℚ) / (toRate : ℚ)))).toNat) 0 i hi
  rw [h0] at h
  simpa using h

/-- C8 witness: resampling four samples from rate 4 to rate 2 matches the box
average at output index 0. -/
theorem resample_box_average_witness :
    (resample [1, 2, 3, 4] 4 2).getD 0 0 = boxAverageSpec [1, 2, 3, 4] 4 2 0 :=
  resample_box_average [1, 2, 3, 4] 4 2 (by decide) 0 (by
    simp only [resample, resampleGo_length, if_neg (by decide : (4 : ℕ) ≠ 2)]
    norm_num [jsRound])

/-! ## Claim C10 -/

/-- C10: the unguarded accum / count division in resample is safe exactly
under the downsampling precondition.  For every non-empty input and rates
with fromRate > toRate > 0, each output index's averaging window contains at
least one input sample (count ≥ 1), so no output element is computed as 0/0;
and the guarantee does not extend to upsampling: resampling one sample from
rate 1 to rate 2 produces a second output index whose window is empty
(count = 0, a NaN in the JS code). -/
theorem resample_count_positive_when_downsampling :
    (∀ (audioData : List ℚ) (fromRate toRate : ℕ),
        toRate < fromRate → 0 < toRate → audioData ≠ [] →
        ∀ i, i < (resample audioData fromRate toRate).length →
          1 ≤ boxCount audioData fromRate toRate i) ∧
      (1 < (resample [1] 1 2).length ∧ boxCount [1] 1 2 1 = 0) := by
  constructor
  · intro audioData fr tr hlt htr hne i hi
    have hfrne : fr ≠ tr := by omega
    simp only [resample, if_neg hfrne, resampleGo_length] at hi
    simp only [boxCount, List.length_take, List.length_drop]
    set rr : ℚ := (fr : ℚ) / (tr : ℚ) with hrrdef
    have htrQ : (0 : ℚ) < (tr : ℚ) := by exact_mod_cast htr
    have hrr1 : 1 < rr := (one_lt_div htrQ).mpr (by exact_mod_cast hlt)
    have hrr0 : 0 < rr := lt_trans one_pos hrr1
    have hL : 1 ≤ audioData.length := List.length_pos.mpr hne
    have hi1 : (i : ℤ) + 1 ≤ jsRound ((audioData.length : ℚ) / rr) := by omega
    have hfl : ((i : ℚ) + 1) ≤ (audioData.length : ℚ) / rr + 1/2 := by
      have h1 : ((jsRound ((audioData.length : ℚ) / rr) : ℤ) : ℚ) ≤
          (audioData.length : ℚ) / rr + 1/2 := by
        simp only [jsRound]
        exact Int.floor_le _
      have h2 : (((i : ℤ) + 1 : ℤ) : ℚ) ≤ ((jsRound ((audioData.length : ℚ) / rr) : ℤ) : ℚ) := by
        exact_mod_cast hi1
      push_cast at h2
      linarith
    have hkey : (i : ℚ) * rr + 1/2 < (audioData.length : ℚ) := by
      have h2 : ((i : ℚ) + 1/2) * rr ≤ (audioData.length : ℚ) := by
        rw [← le_div_iff₀ hrr0]
        linarith
      nlinarith [(by positivity : (0 : ℚ) ≤ (i : ℚ))]
    have hlo_lt_L : jsRound ((i : ℚ) * rr) < (audioData.length : ℤ) := by
      simp only [jsRound]
      exact Int.floor_lt.mpr (by push_cast; linarith)
    have hlo_nonneg : 0 ≤ jsRound ((i : ℚ) * rr) := by
      simp only [jsRound]
      exact Int.floor_nonneg.mpr (by positivity)
    have hlo_lt_hi : jsRound ((i : ℚ) * rr) < jsRound (((i : ℚ) + 1) * rr) := by
      simp only [jsRound]
      have hstep : (i : ℚ) * rr + 1/2 + 1 ≤ ((i : ℚ) + 1) * rr + 1/2 := by nlinarith
      calc ⌊(i : ℚ) * rr + 1/2⌋ < ⌊(i : ℚ) * rr + 1/2⌋ + 1 := by omega
        _ = ⌊(i : ℚ) * rr + 1/2 + 1⌋ := by rw [Int.floor_add_one]
        _ ≤ ⌊((i : ℚ) + 1) * rr + 1/2⌋ := Int.floor_le_floor hstep
    omega
  · constructor
    · simp only [resample, if_neg (by decide : (1 : ℕ) ≠ 2), resampleGo_length]
      norm_num [jsRound]
    · simp only [boxCount]
      norm_num [jsRound]

/-- C10 witness: downsampling three samples from rate 2 to rate 1, output
index 0 averages a non-empty window. -/
theorem resample_count_positive_when_downsampling_witness :
    1 ≤ boxCount [1, 2, 3] 2 1 0 :=
  resample_count_positive_when_downsampling.1 [1, 2, 3] 2 1 (by decide) (by decide)
    (by decide) 0 (by
      simp only [resample, if_neg (by decide : (2 : ℕ) ≠ 1), resampleGo_length]
      norm_num [jsRound])

/-! ## Claim C2 -/

/-- C2 counterexample.  The claim that a chunk-boundary restart leaves no time
gap fails on the code: with the default 30000 ms chunk duration and a single
boundary whose onstop handler takes 1 ms before restarting the recorder, the
instant 30000 lies inside the recording run (the next chunk starts only at
30001) yet is captured by no chunk — the recorder was stopped then, so that
audio is dropped rather than assigned to the next chunk. -/
theorem chunk_boundary_gap_counterexample :
    captured 30000 [1] 30000 = false ∧
      30000 < nextChunkStart 30000 0 [1] ∧
      inRestartWindow 30000 [1] 30000 = true := by
  refine ⟨by decide, by decide, by decide⟩

/-- C2 amended: for every sequence of chunk-boundary firings, an instant of
the recording run is captured by some emitted (or still accumulating) chunk
iff it does not fall in a restart window [s + D, s + D + d), where s is the
start of the chunk ended at that boundary, D the chunk duration and d the
delay until the onstop handler restarted the recorder.  Audio arriving inside
a restart window belongs to no chunk and is dropped; outside those windows
nothing is lost. -/
theorem chunk_coverage_iff_outside_restart_windows (D : ℕ) (ds : List ℕ) (t : ℕ) :
    captured D ds t = !inRestartWindow D ds t := by
  simpa [captured, inRestartWindow] using
    captured_from_eq D t ds 0 (Nat.zero_le t)

/-! ## Claim C3 -/

/-- C3 counterexample.  When the streaming session ends while the desired
state is still recording and both restart attempts throw, the code surfaces
the error (one onError report) but does not transition to Stopped: the state
still has isRecording = true, no stopped status is emitted and shouldRestart
is still set, contradicting the claimed transition to the Stopped state. -/
theorem restart_retry_no_stopped_transition_counterexample :
    (onend { initWSState with isRecording := true, shouldRestart := true }
        0 true true).final.errorsReported = 1 ∧
      (onend { initWSState with isRecording := true, shouldRestart := true }
          0 true true).final.isRecording = true ∧
      (onend { initWSState with isRecording := true, shouldRestart := true }
          0 true true).final.statusEvents = [] ∧
      (onend { initWSState with isRecording := true, shouldRestart := true }
          0 true true).stoppedEmitted = false := by
  refine ⟨by decide, by decide, by decide, by decide⟩

/-- C3 amended: when the session ends while the desired state is still
recording, a restart is attempted after restartDelay ms (300 ms in the
constructor's default state); if it throws, exactly one further attempt is
made 1000 ms later; if that also throws the error is surfaced through the
error callback — but the controller does not transition to Stopped: it stays
in the recording state and emits no status event. -/
theorem restart_retry_schedule_and_error_surfacing
    (st : WSState) (t0 : ℕ) (th1 th2 : Bool)
    (hr : st.isRecording = true) (hs : st.shouldRestart = true) :
    (onend st t0 th1 th2).startCalls =
        (if th1 then [t0 + st.restartDelay, t0 + st.restartDelay + 1000]
         else [t0 + st.restartDelay]) ∧
      (onend st t0 th1 th2).final.errorsReported =
        st.errorsReported + (if th1 && th2 then 1 else 0) ∧
      (onend st t0 th1 th2).final.isRecording = true ∧
      (onend st t0 th1 th2).final.statusEvents = st.statusEvents ∧
      (onend st t0 th1 th2).stoppedEmitted = false ∧
      initWSState.restartDelay = 300 := by
  cases th1 <;> cases th2 <;> simp [onend, hr, hs, initWSState]

/-- C3 witness: the amended theorem applied at the default recording state
with both attempts throwing. -/
theorem restart_retry_schedule_and_error_surfacing_witness :
    (onend { initWSState with isRecording := true, shouldRestart := true }
        0 true true).startCalls = [300, 1300] ∧
      (onend { initWSState with isRecording := true, shouldRestart := true }
          0 true true).final.errorsReported = 1 := by
  have h := restart_retry_schedule_and_error_surfacing
    { initWSState with isRecording := true, shouldRestart := true } 0 true true rfl rfl
  exact ⟨by simpa [initWSState] using h.1, by simpa [initWSState] using h.2.1⟩

/-! ## Claim C6 -/

/-- C6 counterexample.  The claim says a space is inserted only if the final
text does not already end in whitespace; but the code only checks for the
space character, so on a final text ending in a newline (which is whitespace)
it still inserts a space. -/
theorem appendFinal_whitespace_counterexample :
    endsInWhitespace ['f', 'o', 'o', newlineChar] = true ∧
      appendFinal ['f', 'o', 'o', newlineChar] ['b', 'a', 'r'] =
        ['f', 'o', 'o', newlineChar, spaceChar, 'b', 'a', 'r'] := by
  refine ⟨by decide, by decide⟩

/-- C6 amended: appendFinal inserts exactly one separating space iff the
current final text is non-empty and does not already end with the space
character (other trailing whitespace such as newline does not suppress the
space); in particular appending the fragments f-o-o then b-a-r to an empty
accumulator yields exactly one inserted space. -/
theorem appendFinal_space_character_rule :
    (∀ finalTranscript text : List Char,
        appendFinal finalTranscript text =
          if finalTranscript ≠ [] ∧ finalTranscript.getLast? ≠ some spaceChar then
            finalTranscript ++ spaceChar :: text
          else finalTranscript ++ text) ∧
      appendFinal (appendFinal [] ['f', 'o', 'o']) ['b', 'a', 'r'] =
        ['f', 'o', 'o', spaceChar, 'b', 'a', 'r'] ∧
      appendFinal (appendFinal [] ['f', 'o', 'o']) ['b', 'a', 'r'] ≠
        ['f', 'o', 'o', 'b', 'a', 'r'] ∧
      appendFinal (appendFinal [] ['f', 'o', 'o']) ['b', 'a', 'r'] ≠
        ['f', 'o', 'o', spaceChar, spaceChar, 'b', 'a', 'r'] := by
  refine ⟨?_, by decide, by decide, by decide⟩
  intro f t
  rcases f with _ | ⟨c, f⟩
  · simp [appendFinal]
  · by_cases h : (c :: f).getLast? = some spaceChar <;>
      simp [appendFinal, h]

/-! ## Claim C7 -/

/-- C7: when the two sample rates coincide, resample returns its input
unchanged, for every sample sequence and every rate. -/
theorem resample_same_rate_identity (audioData : List ℚ) (r : ℕ) :
    resample audioData r r = audioData := by
  simp [resample]

/-! ## Claim C9 -/

/-- C9: wsStart never changes the final transcript on any path (so it
persists across starts), and on the successful path — recognition available,
not already recording, permission granted — the interim transcript is reset
to empty (this reset happens before recognition.start(), so it holds whether
or not that call throws). -/
theorem wsStart_preserves_final_resets_interim
    (st : WSState) (perm thr : Bool) :
    (wsStart st perm thr).2.finalTranscript = st.finalTranscript ∧
      (st.hasRecognition = true → st.isRecording = false → perm = true →
        (wsStart st perm thr).2.interimTranscript = []) := by
  constructor
  · cases hrec : st.hasRecognition <;> cases hr : st.isRecording <;>
      cases perm <;> cases thr <;> simp [wsStart, hrec, hr]
  · intro h1 h2 h3
    cases thr <;> simp [wsStart, h1, h2, h3]

/-- C9 witness: starting from a state with a non-empty final transcript, with
permission granted and recognition.start() not throwing, the final transcript
is preserved and the interim transcript is emptied. -/
theorem wsStart_preserves_final_resets_interim_witness :
    (wsStart { initWSState with
                 finalTranscript := ['h', 'i']
                 interimTranscript := ['x'] } true false).2.finalTranscript = ['h', 'i'] ∧
      (wsStart { initWSState with
                   finalTranscript := ['h', 'i']
                   interimTranscript := ['x'] } true false).2.interimTranscript = [] := by
  have h := wsStart_preserves_final_resets_interim
    { initWSState with finalTranscript := ['h', 'i'], interimTranscript := ['x'] }
    true false
  exact ⟨h.1, h.2 rfl rfl rfl⟩

/-- One event-loop turn preserves the queue invariant: the mutual-exclusion
flag, the outstanding-call count and the posted/pending partition of the
enqueued chunks stay consistent. -/
theorem wtInv_step (st : WTState) (e : WTEvent)
    (hinv : WTInv st = true) (hve : validEvent st e = true) :
    WTInv (step st e) = true := by
  simp only [WTInv, Bool.and_eq_true, beq_iff_eq, Bool.or_eq_true,
    List.isEmpty_iff] at hinv
  obtain ⟨⟨hflight, hidle⟩, hpart⟩ := hinv
  cases e with
  | startRecording =>
      cases hrec : st.isRecording <;>
        simp_all [WTInv, step]
  | chunkReady c =>
      cases hproc : st.isProcessing with
      | false =>
          have hq : st.processingQueue = [] := by
            rcases hidle with h | h
            · rw [hproc] at h; cases h
            · exact h
          simp_all [WTInv, step, processQueue]
      | true =>
          simp_all [WTInv, step, ← List.append_assoc]
  | workerResult =>
      cases hproc : st.isProcessing with
      | false =>
          rw [hproc] at hflight
          simp [validEvent, hflight] at hve
      | true =>
          rw [hproc] at hflight
          rcases hq : st.processingQueue with _ | ⟨c, rest⟩
          · simp_all [WTInv, step, processQueue]
            cases st.isRecording <;> simp_all
          · simp_all [WTInv, step, processQueue]
  | workerError =>
      cases hproc : st.isProcessing with
      | false =>
          rw [hproc] at hflight
          simp [validEvent, hflight] at hve
      | true =>
          rw [hproc] at hflight
          rcases hq : st.processingQueue with _ | ⟨c, rest⟩
          · simp_all [WTInv, step, processQueue]
            cases st.isRecording <;> simp_all
          · simp_all [WTInv, step, processQueue]
  | stopRecording =>
      cases hproc : st.isProcessing <;>
        simp_all [WTInv, step]

/-- Running a valid trace preserves the queue invariant. -/
theorem wtInv_run :
    ∀ (es : List WTEvent) (st : WTState),
      WTInv st = true → validTrace st es = true → WTInv (run st es) = true
  | [], _, hinv, _ => hinv
  | e :: es, st, hinv, hv => by
      simp only [validTrace, Bool.and_eq_true] at hv
      exact wtInv_run es (step st e) (wtInv_step st e hinv hv.1) hv.2

/-- A prefix of a valid trace is itself a valid trace. -/
theorem validTrace_append :
    ∀ (p s : List WTEvent) (st : WTState),
      validTrace st (p ++ s) = true → validTrace st p = true
  | [], _, _, _ => rfl
  | e :: p, s, st, hv => by
      simp only [List.cons_append, validTrace, Bool.and_eq_true] at hv ⊢
      exact ⟨hv.1, validTrace_append p s (step st e) hv.2⟩

/-! ## Claim C1 -/

/-- C1: along every valid event trace from the initial state (worker replies
arrive only while a transcribe call is outstanding), at every point of the
trace at most one transcribe call is in flight — a second chunk is never
posted to the worker while a previous transcribe call has not completed — and
the chunks posted to the worker followed by the still-pending queue are
exactly the enqueued chunks in order, so hand-off to the worker is FIFO in
enqueue order. -/
theorem chunk_queue_fifo_and_mutual_exclusion (p s : List WTEvent)
    (hv : validTrace initWTState (p ++ s) = true) :
    (run initWTState p).inFlight ≤ 1 ∧
      (run initWTState p).posted ++ (run initWTState p).processingQueue
        = (run initWTState p).enqueued := by
  have hp := validTrace_append p s initWTState hv
  have hinv := wtInv_run p initWTState (by decide) hp
  simp only [WTInv, Bool.and_eq_true, beq_iff_eq, Bool.or_eq_true,
    List.isEmpty_iff] at hinv
  refine ⟨?_, hinv.2⟩
  have h := hinv.1.1
  cases hproc : (run initWTState p).isProcessing <;> simp [hproc] at h <;> omega

/-- C1 witness: a concrete valid trace — start, two chunks enqueued, an error
completion then a successful completion — run up to its fourth event. -/
theorem chunk_queue_fifo_and_mutual_exclusion_witness :
    (run initWTState
        [WTEvent.startRecording, WTEvent.chunkReady 0, WTEvent.chunkReady 1,
          WTEvent.workerError]).inFlight ≤ 1 ∧
      (run initWTState
          [WTEvent.startRecording, WTEvent.chunkReady 0, WTEvent.chunkReady 1,
            WTEvent.workerError]).posted ++
          (run initWTState
              [WTEvent.startRecording, WTEvent.chunkReady 0, WTEvent.chunkReady 1,
                WTEvent.workerError]).processingQueue
        = (run initWTState
            [WTEvent.startRecording, WTEvent.chunkReady 0, WTEvent.chunkReady 1,
              WTEvent.workerError]).enqueued :=
  chunk_queue_fifo_and_mutual_exclusion
    [WTEvent.startRecording, WTEvent.chunkReady 0, WTEvent.chunkReady 1,
      WTEvent.workerError]
    [WTEvent.workerResult, WTEvent.stopRecording]
    (by decide)

/-! ## Claim C4 -/

/-- C4: a worker error message for the current chunk does not abort the
queue.  In any state satisfying the queue invariant with one call in flight,
the error event reports the error (one onError callback), enqueues nothing
new (the failed chunk is dropped, never re-queued or re-posted), posts
exactly the next pending chunk if one exists (continuing in Processing) and
otherwise goes idle with nothing further posted. -/
theorem inference_error_continues_queue (st : WTState)
    (_hinv : WTInv st = true) (_hif : st.inFlight = 1) :
    (step st WTEvent.workerError).errorsReported = st.errorsReported + 1 ∧
      (step st WTEvent.workerError).enqueued = st.enqueued ∧
      (step st WTEvent.workerError).posted = st.posted ++ st.processingQueue.take 1 ∧
      (step st WTEvent.workerError).processingQueue = st.processingQueue.tail ∧
      (step st WTEvent.workerError).isProcessing = !st.processingQueue.isEmpty := by
  rcases hq : st.processingQueue with _ | ⟨c, rest⟩
  · cases hrec : st.isRecording <;> simp [step, processQueue, hq, hrec]
  · simp [step, processQueue, hq]

/-- C4 witness: the theorem applied to a processing state with one chunk in
flight and one pending. -/
theorem inference_error_continues_queue_witness :
    (step { isRecording := true, isProcessing := true, processingQueue := [5]
            posted := [4], inFlight := 1, enqueued := [4, 5], statusEvents := []
            errorsReported := 0 : WTState } WTEvent.workerError).errorsReported = 1 ∧
      (step { isRecording := true, isProcessing := true, processingQueue := [5]
              posted := [4], inFlight := 1, enqueued := [4, 5], statusEvents := []
              errorsReported := 0 : WTState } WTEvent.workerError).enqueued = [4, 5] ∧
      (step { isRecording := true, isProcessing := true, processingQueue := [5]
              posted := [4], inFlight := 1, enqueued := [4, 5], statusEvents := []
              errorsReported := 0 : WTState } WTEvent.workerError).posted = [4] ++ [5] ∧
      (step { isRecording := true, isProcessing := true, processingQueue := [5]
              posted := [4], inFlight := 1, enqueued := [4, 5], statusEvents := []
              errorsReported := 0 : WTState } WTEvent.workerError).processingQueue = [] ∧
      (step { isRecording := true, isProcessing := true, processingQueue := [5]
              posted := [4], inFlight := 1, enqueued := [4, 5], statusEvents := []
              errorsReported := 0 : WTState } WTEvent.workerError).isProcessing = true := by
  have h := inference_error_continues_queue
    { isRecording := true, isProcessing := true, processingQueue := [5]
      posted := [4], inFlight := 1, enqueued := [4, 5], statusEvents := []
      errorsReported := 0 } (by decide) rfl
  exact ⟨h.1, h.2.1, h.2.2.1, h.2.2.2.1, h.2.2.2.2⟩

/-! ## Claim C5 -/

/-- C5: whenever an event-loop turn delivers the stopped status (in any state
satisfying the queue invariant, on any valid event), the resulting state has
an empty pending FIFO, no inference call in flight, and recording off.  So
after stop() is called while chunks are queued or in flight (isProcessing
true, under which stop() itself emits nothing), the stopped status can only
be delivered by the completion that drains the queue. -/
theorem stopped_status_only_after_drain (st : WTState) (e : WTEvent)
    (hinv : WTInv st = true) (hve : validEvent st e = true)
    (hmem : WTStatus.stopped ∈ emittedStatuses st e) :
    (step st e).processingQueue = [] ∧ (step st e).inFlight = 0 ∧
      (step st e).isRecording = false := by
  simp only [WTInv, Bool.and_eq_true, beq_iff_eq, Bool.or_eq_true,
    List.isEmpty_iff] at hinv
  obtain ⟨⟨hflight, hidle⟩, hpart⟩ := hinv
  cases e with
  | startRecording =>
      cases hrec : st.isRecording <;>
        simp_all [emittedStatuses, step, List.drop_left, List.drop_length]
  | chunkReady c =>
      cases hproc : st.isProcessing with
      | false =>
          have hq : st.processingQueue = [] := by
            rcases hidle with h | h
            · rw [hproc] at h; cases h
            · exact h
          simp_all [emittedStatuses, step, processQueue, List.drop_left]
      | true =>
          simp_all [emittedStatuses, step, List.drop_length]
  | workerResult =>
      cases hproc : st.isProcessing with
      | false =>
          rw [hproc] at hflight
          simp [validEvent, hflight] at hve
      | true =>
          rw [hproc] at hflight
          rcases hq : st.processingQueue with _ | ⟨c, rest⟩
          · cases hrec : st.isRecording <;>
              simp_all [emittedStatuses, step, processQueue, List.drop_left,
                List.drop_length]
          · simp_all [emittedStatuses, step, processQueue, List.drop_left]
  | workerError =>
      cases hproc : st.isProcessing with
      | false =>
          rw [hproc] at hflight
          simp [validEvent, hflight] at hve
      | true =>
          rw [hproc] at hflight
          rcases hq : st.processingQueue with _ | ⟨c, rest⟩
          · cases hrec : st.isRecording <;>
              simp_all [emittedStatuses, step, processQueue, List.drop_left,
                List.drop_length]
          · simp_all [emittedStatuses, step, processQueue, List.drop_left]
  | stopRecording =>
      cases hproc : st.isProcessing with
      | false =>
          have hq : st.processingQueue = [] := by
            rcases hidle with h | h
            · rw [hproc] at h; cases h
            · exact h
          rw [hproc] at hflight
          simp_all [emittedStatuses, step]
      | true =>
          simp_all [emittedStatuses, step, List.drop_length]

/-- C5 witness: recording already stopped with one call still in flight and
nothing else queued; the successful completion that drains the queue emits
stopped, and the resulting state is fully drained. -/
theorem stopped_status_only_after_drain_witness :
    (step { isRecording := false, isProcessing := true, processingQueue := []
            posted := [0], inFlight := 1, enqueued := [0], statusEvents := []
            errorsReported := 0 : WTState } WTEvent.workerResult).processingQueue = [] ∧
      (step { isRecording := false, isProcessing := true, processingQueue := []
              posted := [0], inFlight := 1, enqueued := [0], statusEvents := []
              errorsReported := 0 : WTState } WTEvent.workerResult).inFlight = 0 ∧
      (step { isRecording := false, isProcessing := true, processingQueue := []
              posted := [0], inFlight := 1, enqueued := [0], statusEvents := []
              errorsReported := 0 : WTState } WTEvent.workerResult).isRecording = false :=
  stopped_status_only_after_drain
    { isRecording := false, isProcessing := true, processingQueue := []
      posted := [0], inFlight := 1, enqueued := [0], statusEvents := []
      errorsReported := 0 } WTEvent.workerResult (by decide) (by decide) (by decide)

end SpeechToText
